import Mathlib

/-!
Verification of the Go dependency strategy in `pkg/dep/go_mod.go`: the
go.mod rebase (merge) engine, the go.sum checksum synchronisation loop,
and the checksum-log transport primitive `ReadRemote`.

Manifests are embedded at the semantic level of `golang.org/x/mod/modfile`
(the field data of a parsed `File`); the version order is a faithful
translation of `golang.org/x/mod/semver`, working on character lists.
-/

namespace GoMod

namespace semver

/-- The fields of a parsed semantic version (struct `parsed` in
x/mod/semver): `major`, `minor`, `patch` as digit strings, the
prerelease suffix carrying its leading `-`, and the build suffix
carrying its leading `+`. -/
structure Parsed where
  major : List Char
  minor : List Char
  patch : List Char
  prerelease : List Char
  build : List Char
deriving DecidableEq

/-- ASCII digit test, as the source writes it. -/
def isDigitCh (c : Char) : Bool := '0' ≤ c && c ≤ '9'

/-- Translation of `isIdentChar`: letters, digits and `-`. -/
def isIdentChar (c : Char) : Bool :=
  ('A' ≤ c && c ≤ 'Z') || ('a' ≤ c && c ≤ 'z') || ('0' ≤ c && c ≤ '9') || c == '-'

/-- Translation of `isNum`: every character is a digit. -/
def isNum (v : List Char) : Bool := v.all isDigitCh

/-- Translation of `isBadNum`: an all-digit identifier of length greater
than one with a leading zero. -/
def isBadNum (v : List Char) : Bool :=
  v.all isDigitCh && decide (1 < v.length) && (v.head? == some '0')

/-- Translation of `parseInt`: a nonempty digit run with no leading zero
(unless it is exactly the digit run "0"); returns the run and the rest. -/
def parseInt (v : List Char) : Option (List Char × List Char) :=
  match v with
  | [] => none
  | c :: _ =>
    if !isDigitCh c then none
    else if c == '0' && decide ((v.takeWhile isDigitCh).length ≠ 1) then none
    else some (v.takeWhile isDigitCh, v.dropWhile isDigitCh)

/-- Dot-separated segments of an identifier run: exactly the segments the
scanning loops of `parsePrerelease` and `parseBuild` check at each dot
and at the end of the run. -/
def splitDots : List Char → List (List Char)
  | [] => [[]]
  | c :: cs =>
    if c = '.' then [] :: splitDots cs
    else
      match splitDots cs with
      | s :: ss => (c :: s) :: ss
      | [] => [[c]]

/-- Translation of `parsePrerelease`: scan past the leading `-` up to the
first `+`; every scanned character must be an identifier character or a
dot, and every dot-separated segment must be nonempty and not a bad
(leading-zero) number.  Returns the prerelease (with its `-`) and the
rest. -/
def parsePrerelease (v : List Char) : Option (List Char × List Char) :=
  let body := (v.drop 1).takeWhile (fun c => c != '+')
  let rest := (v.drop 1).dropWhile (fun c => c != '+')
  if body.all (fun c => isIdentChar c || c == '.') &&
      (splitDots body).all (fun s => !s.isEmpty && !isBadNum s) then
    some (v.take 1 ++ body, rest)
  else none

/-- Translation of `parseBuild`: scan past the leading `+` to the end of
the string; every character must be an identifier character or a dot and
every dot-separated segment nonempty. -/
def parseBuild (v : List Char) : Option (List Char × List Char) :=
  let body := v.drop 1
  if body.all (fun c => isIdentChar c || c == '.') &&
      (splitDots body).all (fun s => !s.isEmpty) then
    some (v.take 1 ++ body, [])
  else none

/-- The tail of `parse` after `major.minor.patch` have been read: an
optional prerelease (introduced by `-`), an optional build suffix
(introduced by `+`), and nothing else. -/
def parsePreBuild (major minor patch v5 : List Char) : Option Parsed :=
  match (match v5 with
         | '-' :: _ => parsePrerelease v5
         | _ => some ([], v5)) with
  | none => none
  | some (pre, v6) =>
    match (match v6 with
           | '+' :: _ => parseBuild v6
           | _ => some ([], v6)) with
    | none => none
    | some (build, v7) =>
      if v7.isEmpty then some ⟨major, minor, patch, pre, build⟩ else none

/-- Translation of `parse` from x/mod/semver: a leading `v`, then
`major[.minor[.patch[-prerelease][+build]]]`, with omitted minor/patch
defaulting to "0". -/
def parse (v : List Char) : Option Parsed :=
  match v with
  | [] => none
  | c :: rest =>
    if c ≠ 'v' then none
    else
      match parseInt rest with
      | none => none
      | some (major, v1) =>
        if v1.isEmpty then some ⟨major, ['0'], ['0'], [], []⟩
        else
          match v1 with
          | '.' :: v2 =>
            (match parseInt v2 with
             | none => none
             | some (minor, v3) =>
               if v3.isEmpty then some ⟨major, minor, ['0'], [], []⟩
               else
                 match v3 with
                 | '.' :: v4 =>
                   (match parseInt v4 with
                    | none => none
                    | some (patch, v5) => parsePreBuild major minor patch v5)
                 | _ => none)
          | _ => none

/-- Go's bytewise string comparison `x < y` on the ASCII identifier runs
compared by `comparePrerelease`. -/
def listLt : List Char → List Char → Bool
  | _, [] => false
  | [], _ :: _ => true
  | a :: as, b :: bs => if a = b then listLt as bs else decide (a.toNat < b.toNat)

/-- Translation of `compareInt`: numeric comparison of two digit runs —
a shorter run is smaller, equal-length runs compare bytewise. -/
def compareInt (x y : List Char) : Int :=
  if x = y then 0
  else if x.length < y.length then -1
  else if y.length < x.length then 1
  else if listLt x y then -1
  else 1

/-- The scanning loop of `comparePrerelease`.  Each Go iteration skips
the `-` or `.` separator and takes the next identifier with `nextIdent`,
so the loop walks exactly the dot-separated identifier sequences of the
two prereleases (after their leading `-`); here the walk is phrased as
structural recursion over those sequences.  The first differing pair
decides (numeric identifiers sort before alphanumeric ones and compare
by length then bytewise); the side that runs out first is the smaller. -/
def compareIdents : List (List Char) → List (List Char) → Int
  | [], _ => -1
  | _ :: _, [] => 1
  | dx :: xs, dy :: ys =>
    if dx ≠ dy then
      if isNum dx ≠ isNum dy then (if isNum dx then -1 else 1)
      else if isNum dx && decide (dx.length ≠ dy.length) then
        (if dx.length < dy.length then -1 else 1)
      else if listLt dx dy then -1
      else 1
    else compareIdents xs ys

/-- Translation of `comparePrerelease`: equal strings tie; an absent
prerelease is larger than any present one; otherwise scan the
dot-separated identifiers after the leading `-`. -/
def comparePrerelease (x y : List Char) : Int :=
  if x = y then 0
  else if x = [] then 1
  else if y = [] then -1
  else compareIdents (splitDots (x.drop 1)) (splitDots (y.drop 1))

/-- Translation of `Compare` from x/mod/semver on character lists: an
invalid version sorts below every valid one (two invalid versions tie);
valid versions compare by major, minor, patch, then prerelease; build
metadata is ignored. -/
def compareCore (v w : List Char) : Int :=
  match parse v, parse w with
  | none, none => 0
  | none, some _ => -1
  | some _, none => 1
  | some pv, some pw =>
    if compareInt pv.major pw.major ≠ 0 then compareInt pv.major pw.major
    else if compareInt pv.minor pw.minor ≠ 0 then compareInt pv.minor pw.minor
    else if compareInt pv.patch pw.patch ≠ 0 then compareInt pv.patch pw.patch
    else comparePrerelease pv.prerelease pw.prerelease

/-- `semver.Compare` on Go strings. -/
def Compare (v w : String) : Int := compareCore v.data w.data


/-! ### Order facts about the translated comparison -/

theorem char_toNat_inj {a b : Char} (h : a.toNat = b.toNat) : a = b :=
  Char.eq_of_val_eq (UInt32.ext h)

theorem listLt_asymm {x y : List Char} (h : listLt x y = true) : listLt y x = false := by
  induction x generalizing y with
  | nil =>
    cases y with
    | nil => simp [listLt] at h
    | cons b bs => rfl
  | cons a as ih =>
    cases y with
    | nil => simp [listLt] at h
    | cons b bs =>
      by_cases hab : a = b
      · subst hab
        simp only [listLt, if_pos rfl] at h ⊢
        exact ih h
      · have hba : b ≠ a := fun hh => hab hh.symm
        simp only [listLt, if_neg hab, if_neg hba, decide_eq_true_eq,
          decide_eq_false_iff_not] at h ⊢
        omega

theorem listLt_total {x y : List Char} (hne : x ≠ y) (h : listLt x y = false) :
    listLt y x = true := by
  induction x generalizing y with
  | nil =>
    cases y with
    | nil => exact absurd rfl hne
    | cons b bs => simp [listLt] at h
  | cons a as ih =>
    cases y with
    | nil => rfl
    | cons b bs =>
      by_cases hab : a = b
      · subst hab
        have hne' : as ≠ bs := fun hh => hne (by rw [hh])
        simp only [listLt, if_pos rfl] at h ⊢
        exact ih hne' h
      · have hba : b ≠ a := fun hh => hab hh.symm
        have hn : a.toNat ≠ b.toNat := fun hh => hab (char_toNat_inj hh)
        simp only [listLt, if_neg hab, if_neg hba, decide_eq_true_eq,
          decide_eq_false_iff_not] at h ⊢
        omega

theorem listLt_ite_neg {x y : List Char} (hne : x ≠ y) :
    (if listLt x y then (-1 : Int) else 1) = -(if listLt y x then (-1 : Int) else 1) := by
  by_cases hlt : listLt x y = true
  · rw [if_pos hlt, if_neg (show ¬ listLt y x = true by
      rw [listLt_asymm hlt]; exact Bool.false_ne_true)]
  · have hlt' : listLt x y = false := by
      revert hlt
      cases listLt x y <;> simp
    rw [if_neg (show ¬ listLt x y = true by rw [hlt']; exact Bool.false_ne_true),
      if_pos (listLt_total hne hlt')]
    all_goals decide

theorem compareInt_self (x : List Char) : compareInt x x = 0 := by
  simp [compareInt]

theorem compareInt_neg (x y : List Char) : compareInt x y = -compareInt y x := by
  by_cases hxy : x = y
  · subst hxy
    simp [compareInt]
  · have hyx : y ≠ x := fun h => hxy h.symm
    unfold compareInt
    rw [if_neg hxy, if_neg hyx]
    rcases Nat.lt_trichotomy x.length y.length with hl | hl | hl
    · rw [if_pos hl, if_neg (show ¬ y.length < x.length by omega), if_pos hl]
    · rw [if_neg (show ¬ x.length < y.length by omega),
        if_neg (show ¬ y.length < x.length by omega),
        if_neg (show ¬ y.length < x.length by omega),
        if_neg (show ¬ x.length < y.length by omega)]
      exact listLt_ite_neg hxy
    · rw [if_neg (show ¬ x.length < y.length by omega), if_pos hl, if_pos hl]
      all_goals decide

theorem compareIdents_neg {xs ys : List (List Char)} (hne : xs ≠ ys) :
    compareIdents xs ys = -compareIdents ys xs := by
  induction xs generalizing ys with
  | nil =>
    cases ys with
    | nil => exact absurd rfl hne
    | cons dy ys => rfl
  | cons dx xs ih =>
    cases ys with
    | nil => rfl
    | cons dy ys =>
      by_cases hd : dx = dy
      · subst hd
        have hne' : xs ≠ ys := fun hh => hne (by rw [hh])
        show (if dx ≠ dx then _ else compareIdents xs ys) =
          -(if dx ≠ dx then _ else compareIdents ys xs)
        rw [if_neg (not_not_intro rfl), if_neg (not_not_intro rfl)]
        exact ih hne'
      · have hd' : dy ≠ dx := fun hh => hd hh.symm
        show (if dx ≠ dy then _ else _) = -(if dy ≠ dx then _ else _)
        rw [if_pos hd, if_pos hd']
        by_cases hn : isNum dx = isNum dy
        · rw [if_neg (not_not_intro hn), if_neg (not_not_intro hn.symm)]
          by_cases hlen : dx.length = dy.length
          · rw [if_neg (show ¬ (isNum dx && decide (dx.length ≠ dy.length)) = true by
                simp [hlen]),
              if_neg (show ¬ (isNum dy && decide (dy.length ≠ dx.length)) = true by
                simp [hlen])]
            exact listLt_ite_neg hd
          · by_cases hnx : isNum dx = true
            · have hny : isNum dy = true := by rw [← hn]; exact hnx
              rw [if_pos (show (isNum dx && decide (dx.length ≠ dy.length)) = true by
                  simp [hnx, hlen]),
                if_pos (show (isNum dy && decide (dy.length ≠ dx.length)) = true by
                  simp [hny]; omega)]
              rcases Nat.lt_trichotomy dx.length dy.length with hl | hl | hl
              · rw [if_pos hl, if_neg (show ¬ dy.length < dx.length by omega)]
              · exact absurd hl hlen
              · rw [if_neg (show ¬ dx.length < dy.length by omega), if_pos hl]
                all_goals decide
            · have hnx' : isNum dx = false := by
                revert hnx
                cases isNum dx <;> simp
              have hny : isNum dy = false := by rw [← hn]; exact hnx'
              rw [if_neg (show ¬ (isNum dx && decide (dx.length ≠ dy.length)) = true by
                  simp [hnx']),
                if_neg (show ¬ (isNum dy && decide (dy.length ≠ dx.length)) = true by
                  simp [hny])]
              exact listLt_ite_neg hd
        · have hn' : isNum dy ≠ isNum dx := fun hh => hn hh.symm
          rw [if_pos hn, if_pos hn']
          by_cases hnx : isNum dx = true
          · have hny : isNum dy = false := by
              revert hn
              rw [hnx]
              cases isNum dy <;> simp
            rw [if_pos hnx, if_neg (show ¬ isNum dy = true by
              rw [hny]; exact Bool.false_ne_true)]
          · have hnx' : isNum dx = false := by
              revert hnx
              cases isNum dx <;> simp
            have hny : isNum dy = true := by
              revert hn
              rw [hnx']
              cases isNum dy <;> simp
            rw [if_neg (show ¬ isNum dx = true by rw [hnx']; exact Bool.false_ne_true),
              if_pos hny]
            all_goals decide

theorem splitDots_ne_nil (l : List Char) : splitDots l ≠ [] := by
  cases l with
  | nil => simp [splitDots]
  | cons c cs =>
    simp only [splitDots]
    split
    · simp
    · split <;> simp

/-- Rejoin dot-separated segments; inverse of `splitDots`. -/
def joinDots : List (List Char) → List Char
  | [] => []
  | s :: ss =>
    match ss with
    | [] => s
    | _ :: _ => s ++ '.' :: joinDots ss

theorem joinDots_splitDots (l : List Char) : joinDots (splitDots l) = l := by
  induction l with
  | nil => rfl
  | cons c cs ih =>
    by_cases hc : c = '.'
    · subst hc
      rw [show splitDots ('.' :: cs) = [] :: splitDots cs by simp [splitDots]]
      cases hs : splitDots cs with
      | nil => exact absurd hs (splitDots_ne_nil cs)
      | cons s ss =>
        show [] ++ '.' :: joinDots (s :: ss) = '.' :: cs
        rw [← hs, ih]
        rfl
    · rw [show splitDots (c :: cs) =
          (match splitDots cs with
           | s :: ss => (c :: s) :: ss
           | [] => [[c]]) by simp [splitDots, hc]]
      cases hs : splitDots cs with
      | nil => exact absurd hs (splitDots_ne_nil cs)
      | cons s ss =>
        rw [← ih, hs]
        cases ss with
        | nil => rfl
        | cons t ts => rfl

theorem splitDots_inj {a b : List Char} (h : splitDots a = splitDots b) : a = b := by
  have hj := congrArg joinDots h
  rwa [joinDots_splitDots, joinDots_splitDots] at hj

theorem comparePrerelease_self (x : List Char) : comparePrerelease x x = 0 := by
  simp [comparePrerelease]

theorem comparePrerelease_neg {x y : List Char}
    (hx : x = [] ∨ x.head? = some '-') (hy : y = [] ∨ y.head? = some '-') :
    comparePrerelease x y = -comparePrerelease y x := by
  by_cases hxy : x = y
  · subst hxy
    simp [comparePrerelease]
  · have hyx : y ≠ x := fun h => hxy h.symm
    unfold comparePrerelease
    rw [if_neg hxy, if_neg hyx]
    by_cases hxe : x = []
    · have hye : y ≠ [] := fun h => hxy (hxe.trans h.symm)
      rw [if_pos hxe, if_neg hye, if_pos hxe]
      decide
    · by_cases hye : y = []
      · rw [if_neg hxe, if_pos hye, if_pos hye]
      · rw [if_neg hxe, if_neg hye, if_neg hye, if_neg hxe]
        rcases hx with hx | hx
        · exact absurd hx hxe
        rcases hy with hy | hy
        · exact absurd hy hye
        obtain ⟨cx, tx, rfl⟩ : ∃ c t, x = c :: t := by
          cases x with
          | nil => exact absurd rfl hxe
          | cons c t => exact ⟨c, t, rfl⟩
        obtain ⟨cy, ty, rfl⟩ : ∃ c t, y = c :: t := by
          cases y with
          | nil => exact absurd rfl hye
          | cons c t => exact ⟨c, t, rfl⟩
        simp only [List.head?_cons, Option.some_inj] at hx hy
        subst hx
        subst hy
        have htx : tx ≠ ty := fun hh => hxy (by rw [hh])
        have hsp : splitDots ((('-' : Char) :: tx).drop 1) ≠
            splitDots ((('-' : Char) :: ty).drop 1) := by
          intro hh
          exact htx (splitDots_inj (by simpa using hh))
        exact compareIdents_neg hsp

theorem parsePrerelease_head {r5 t r : List Char}
    (h : parsePrerelease ('-' :: r5) = some (t, r)) : t.head? = some '-' := by
  simp only [parsePrerelease] at h
  split at h
  · injection h with h1
    injection h1 with h2 h3
    rw [← h2]
    rfl
  · cases h

theorem parsePreBuild_shape {major minor patch v5 : List Char} {p : Parsed}
    (h : parsePreBuild major minor patch v5 = some p) :
    p.prerelease = [] ∨ p.prerelease.head? = some '-' := by
  unfold parsePreBuild at h
  split at h
  · cases h
  next pre v6 heq =>
    split at h
    · cases h
    next build v7 heq2 =>
      split at h
      · injection h with h1
        have hpre : p.prerelease = pre := by rw [← h1]
        split at heq
        next =>
          right
          rw [hpre]
          exact parsePrerelease_head heq
        next =>
          left
          rw [hpre]
          injection heq with h2
          injection h2 with h3 h4
          exact h3.symm
      · cases h

theorem parse_shape {v : List Char} {p : Parsed} (h : parse v = some p) :
    p.prerelease = [] ∨ p.prerelease.head? = some '-' := by
  unfold parse at h
  split at h
  · cases h
  next c rest =>
    split at h
    · cases h
    · split at h
      · cases h
      next major v1 heq1 =>
        split at h
        · left
          injection h with h1
          rw [← h1]
        · split at h
          next v2 =>
            split at h
            · cases h
            next minor v3 heq2 =>
              split at h
              · left
                injection h with h1
                rw [← h1]
              · split at h
                next v4 =>
                  split at h
                  · cases h
                  next patch v5 heq3 => exact parsePreBuild_shape h
                next => cases h
          next => cases h

theorem compareCore_self (v : List Char) : compareCore v v = 0 := by
  unfold compareCore
  cases h : parse v with
  | none => rfl
  | some p =>
    dsimp only
    rw [if_neg (not_not_intro (compareInt_self p.major)),
      if_neg (not_not_intro (compareInt_self p.minor)),
      if_neg (not_not_intro (compareInt_self p.patch))]
    exact comparePrerelease_self p.prerelease

theorem compareCore_neg (v w : List Char) : compareCore v w = -compareCore w v := by
  unfold compareCore
  cases hv : parse v with
  | none =>
    cases hw : parse w with
    | none => rfl
    | some q => rfl
  | some p =>
    cases hw : parse w with
    | none => rfl
    | some q =>
      dsimp only
      have h1 := compareInt_neg p.major q.major
      have h2 := compareInt_neg p.minor q.minor
      have h3 := compareInt_neg p.patch q.patch
      have h4 := comparePrerelease_neg (parse_shape hv) (parse_shape hw)
      by_cases c1 : compareInt p.major q.major = 0
      · have c1' : compareInt q.major p.major = 0 := by omega
        rw [if_neg (not_not_intro c1), if_neg (not_not_intro c1')]
        by_cases c2 : compareInt p.minor q.minor = 0
        · have c2' : compareInt q.minor p.minor = 0 := by omega
          rw [if_neg (not_not_intro c2), if_neg (not_not_intro c2')]
          by_cases c3 : compareInt p.patch q.patch = 0
          · have c3' : compareInt q.patch p.patch = 0 := by omega
            rw [if_neg (not_not_intro c3), if_neg (not_not_intro c3')]
            exact h4
          · have c3' : compareInt q.patch p.patch ≠ 0 := by omega
            rw [if_pos c3, if_pos c3']
            exact h3
        · have c2' : compareInt q.minor p.minor ≠ 0 := by omega
          rw [if_pos c2, if_pos c2']
          exact h2
      · have c1' : compareInt q.major p.major ≠ 0 := by omega
        rw [if_pos c1, if_pos c1']
        exact h1

theorem Compare_self (v : String) : Compare v v = 0 :=
  compareCore_self v.data

theorem Compare_neg (v w : String) : Compare v w = -Compare w v :=
  compareCore_neg v.data w.data

end semver

/-! ## go.mod manifests: the modfile data model -/

/-- One `require` entry of a modfile: module path, version, and the
`// indirect` mark. -/
structure Require where
  path : String
  version : String
  indirect : Bool
deriving DecidableEq

/-- One `exclude` entry. -/
structure Exclude where
  path : String
  version : String
deriving DecidableEq

/-- One `replace` entry. -/
structure Replace where
  oldPath : String
  oldVersion : String
  newPath : String
  newVersion : String
deriving DecidableEq

/-- The version interval of a retraction (`modfile.VersionInterval`). -/
structure VersionInterval where
  low : String
  high : String
deriving DecidableEq

/-- One `retract` entry. -/
structure Retract where
  low : String
  high : String
  rationale : String
deriving DecidableEq

/-- The semantic content of a parsed `modfile.File`: the `module`, `go`
and `toolchain` directives and the requirement / exclude / replace /
retract lists in file order.  Syntax (comments, block layout) is not
modelled. -/
structure ModFile where
  modulePath : String
  goVersion : String
  toolchain : Option String
  require : List Require
  exclude : List Exclude
  replace : List Replace
  retract : List Retract
deriving DecidableEq

/-- Translation of `modfile.File.Cleanup` at the data level: editing
operations clear entries in place (leaving an empty module path, or an
empty interval for retractions) instead of removing them, and `Cleanup`
sweeps the cleared entries out of every list. -/
def Cleanup (f : ModFile) : ModFile :=
  { f with
    require := f.require.filter (fun r => !(r.path == ""))
    exclude := f.exclude.filter (fun x => !(x.path == ""))
    replace := f.replace.filter (fun r => !(r.oldPath == ""))
    retract := f.retract.filter (fun r => !(r.low == "") || !(r.high == "")) }

/-- Translation of `modfile.File.AddNewRequire`: always appends a fresh
require entry, regardless of existing entries for the same path. -/
def AddNewRequire (reqs : List Require) (path vers : String) (indirect : Bool) :
    List Require :=
  reqs ++ [⟨path, vers, indirect⟩]

/-- `modfile.File.SetRequireSeparateIndirect` regroups the printed
require blocks (direct requirements first, indirect second) — a purely
presentational operation; called, as `Rebase` does, with the file's own
requirement list it leaves the semantic list as given. -/
def SetRequireSeparateIndirect (reqs : List Require) : List Require := reqs

/-- Translation of `modfile.File.AddExclude`: appends an exclude unless
an identical (path, version) exclude is already present. -/
def AddExclude (excludes : List Exclude) (path vers : String) : List Exclude :=
  if excludes.any (fun x => x.path == path && x.version == vers) then excludes
  else excludes ++ [⟨path, vers⟩]

/-- The scanning loop of modfile's `addReplace`: the first existing
replacement of the same old module is updated in place to the new
target; any later one is cleared (and swept later by `Cleanup`).  The
returned flag says whether a fresh entry is still needed. -/
def AddReplaceLoop (op ov np nv : String) : List Replace → Bool → List Replace × Bool
  | [], need => ([], need)
  | r :: rs, need =>
    if r.oldPath == op && (ov == "" || r.oldVersion == ov) then
      if need then
        let t := AddReplaceLoop op ov np nv rs false
        ({ r with newPath := np, newVersion := nv } :: t.1, t.2)
      else
        let t := AddReplaceLoop op ov np nv rs need
        (⟨"", "", "", ""⟩ :: t.1, t.2)
    else
      let t := AddReplaceLoop op ov np nv rs need
      (r :: t.1, t.2)

/-- Translation of `modfile.File.AddReplace`. -/
def AddReplace (replaces : List Replace) (op ov np nv : String) : List Replace :=
  let t := AddReplaceLoop op ov np nv replaces true
  if t.2 then t.1 ++ [⟨op, ov, np, nv⟩] else t.1

/-- Translation of `modfile.File.AddRetract`: appends a retraction. -/
def AddRetract (retracts : List Retract) (vi : VersionInterval) (rationale : String) :
    List Retract :=
  retracts ++ [⟨vi.low, vi.high, rationale⟩]

/-! ## The rebase engine (`GoStrategy.Rebase`, go_mod.go:66-129) -/

/-- The nested require loop of `Rebase` (go_mod.go:87-101): for each
downstream requirement, every upstream requirement with the same module
path contributes one `AddNewRequire`d entry, whose version is the
downstream one exactly when `semver.Compare` finds it strictly newer
(otherwise the upstream one, so ties keep upstream), and whose
`indirect` flag is the upstream one. -/
def MergedRequires (upstreamModFile downstreamModFile : ModFile) : List Require :=
  downstreamModFile.require.flatMap fun downstreamPkg =>
    upstreamModFile.require.filterMap fun upstreamPkg =>
      if upstreamPkg.path = downstreamPkg.path then
        some { path := upstreamPkg.path
               version :=
                 if 0 < semver.Compare downstreamPkg.version upstreamPkg.version then
                   downstreamPkg.version
                 else upstreamPkg.version
               indirect := upstreamPkg.indirect }
      else none

/-- Translation of `GoStrategy.Rebase` after both manifests have been
parsed: the new file takes upstream's go version, module path and
(nonempty) toolchain, the intersection-merged requirements, and
upstream's excludes, replaces and retractions added through the modfile
editing operations, then runs `Cleanup`.  Serialization and the final
write are modelled separately (`RebaseWriteOps`). -/
def Rebase (upstreamModFile downstreamModFile : ModFile) : ModFile :=
  Cleanup
    { goVersion := upstreamModFile.goVersion
      modulePath := upstreamModFile.modulePath
      toolchain :=
        match upstreamModFile.toolchain with
        | some t => if t ≠ "" then some t else none
        | none => none
      require := SetRequireSeparateIndirect (MergedRequires upstreamModFile downstreamModFile)
      exclude := upstreamModFile.exclude.foldl
        (fun acc x => AddExclude acc x.path x.version) []
      replace := upstreamModFile.replace.foldl
        (fun acc r => AddReplace acc r.oldPath r.oldVersion r.newPath r.newVersion) []
      retract := upstreamModFile.retract.foldl
        (fun acc r => AddRetract acc ⟨r.low, r.high⟩ r.rationale) [] }

/-! ## The checksum loop (`GoStrategy.UpdateChecksums`, go_mod.go:133-167) -/

/-- The lookup loop of `UpdateChecksums`: for each requirement in
manifest order, look up `(path, version)` and then
`(path, version + "/go.mod")` in the checksum log, printing every
returned line to the output file; the first failed lookup returns an
error naming the dependency.  The first component is the sequence of
lines printed to the (already created and truncated) output file before
returning, the second the error, if any. -/
def UpdateChecksumsLoop (lookup : String → String → Except String (List String)) :
    List Require → List String × Option String
  | [] => ([], none)
  | originPkg :: rest =>
    match lookup originPkg.path originPkg.version with
    | Except.error e =>
      ([], some ("looking up " ++ originPkg.path ++ "/" ++ originPkg.version ++ ": " ++ e))
    | Except.ok lines1 =>
      match lookup originPkg.path (originPkg.version ++ "/go.mod") with
      | Except.error e =>
        (lines1,
          some ("looking up " ++ originPkg.path ++ "/" ++ originPkg.version ++
            "/go.mod: " ++ e))
      | Except.ok lines2 =>
        let t := UpdateChecksumsLoop lookup rest
        (lines1 ++ lines2 ++ t.1, t.2)

/-- Translation of `GoStrategy.UpdateChecksums` on a parsed lockfile,
over an abstract sumdb `lookup`. -/
def UpdateChecksums (lookup : String → String → Except String (List String))
    (originModFile : ModFile) : List String × Option String :=
  UpdateChecksumsLoop lookup originModFile.require

/-- The lines an `Except`-valued lookup contributed: its lines on
success, nothing on failure. -/
def okLines (r : Except String (List String)) : List String :=
  match r with
  | Except.ok lines => lines
  | Except.error _ => []

/-! ## The transport primitive (`clientOps.ReadRemote`, go_mod.go:212-236) -/

/-- The hardcoded sum.golang.org trust anchor, as returned by
`clientOps.ReadConfig` for the "key" file and reused by `ReadRemote`. -/
def trustAnchor : String :=
  "sum.golang.org+033de0ae+Ac4zctda0e5eza+HJyk9SxEdh+s3Ux18htTTAD8OuAn8"

/-- The log server name `ReadRemote` derives: the trust anchor truncated
at its first `+`, if any (go_mod.go:213-216). -/
def logServerName : String :=
  match trustAnchor.data.findIdx? (fun c => c == '+') with
  | some i => ⟨trustAnchor.data.take i⟩
  | none => trustAnchor

/-- An HTTP response as `ReadRemote` observes it: the numeric status
code, the status line text, and the body bytes. -/
structure HttpResponse where
  statusCode : Nat
  status : String
  body : List Nat

/-- Translation of `clientOps.ReadRemote` over an abstract transport
`get`: issue a GET for `https://<logServerName><path>`; a transport
error propagates; a non-200 status becomes the error
`GET <target>: <status>`; a 200 body is read through
`io.LimitReader(resp.Body, 1<<20)`, i.e. truncated to its first 2^20
bytes and returned successfully. -/
def ReadRemote (get : String → Except String HttpResponse) (path : String) :
    Except String (List Nat) :=
  let target := "https://" ++ logServerName ++ path
  match get target with
  | Except.error err => Except.error err
  | Except.ok resp =>
    if resp.statusCode ≠ 200 then Except.error ("GET " ++ target ++ ": " ++ resp.status)
    else Except.ok (resp.body.take (2 ^ 20))

/-! ## The file-system shape of Rebase's output write -/

/-- A file-system publishing step. -/
inductive FsOp where
  | write (path : String) (data : List Nat)
  | rename (src : String) (dst : String)
deriving DecidableEq

/-- The file-system operations `Rebase` performs to publish the
formatted payload (go_mod.go:123-125): a single direct `os.WriteFile`
to the output path — no temporary file, no rename. -/
def RebaseWriteOps (outputFile : String) (payload : List Nat) : List FsOp :=
  [FsOp.write outputFile payload]

/-- Does any step rename something onto `dst`? -/
def hasRenameTo (ops : List FsOp) (dst : String) : Bool :=
  ops.any fun op =>
    match op with
    | FsOp.write _ _ => false
    | FsOp.rename _ d => d == dst

/-- The contents observable at `out` when execution stops somewhere in
the middle of the operation sequence: a direct write truncates the file
and then appends bytes sequentially, so every prefix of its data is an
observable state at its path; a rename exposes nothing partial. -/
def VisibleCrashStates (ops : List FsOp) (out : String) : List (List Nat) :=
  ops.flatMap fun op =>
    match op with
    | FsOp.write p data =>
      if p = out then (List.range (data.length + 1)).map (fun k => data.take k) else []
    | FsOp.rename _ _ => []

/-- Modelled from the spec: "write to a temp location then rename, or
equivalent" — an atomic publish never writes directly to the final
output path; the final path may only appear as the destination of a
rename of fully written data. -/
def atomicPublish (ops : List FsOp) (out : String) : Bool :=
  ops.all fun op =>
    match op with
    | FsOp.write p _ => !(p == out)
    | FsOp.rename _ _ => true

/-! ## List lemmas about the merge loops -/

theorem filter_flatMap {α β : Type} (l : List α) (f : α → List β) (q : β → Bool) :
    (l.flatMap f).filter q = l.flatMap fun a => (f a).filter q := by
  induction l with
  | nil => rfl
  | cons a as ih => simp [List.flatMap_cons, List.filter_append, ih]

theorem filterMap_path_single (f : Require → Require) (l : List Require) (p : String)
    (hn : (l.map Require.path).Nodup) (d : Require) (hd : d ∈ l) (hp : d.path = p) :
    (l.filterMap fun u => if u.path = p then some (f u) else none) = [f d] := by
  induction l with
  | nil => simp at hd
  | cons a as ih =>
    simp only [List.map_cons, List.nodup_cons] at hn
    rcases List.mem_cons.mp hd with h | h
    · subst h
      rw [List.filterMap_cons_some (by rw [if_pos hp])]
      have hrest : (as.filterMap fun u => if u.path = p then some (f u) else none) = [] := by
        rw [List.filterMap_eq_nil_iff]
        intro u hu
        have hup : u.path ≠ p := by
          intro hq
          exact hn.1 (by rw [hp, ← hq]; exact List.mem_map.mpr ⟨u, hu, rfl⟩)
        rw [if_neg hup]
      rw [hrest]
    · have ha : a.path ≠ p := by
        intro hq
        exact hn.1 (by rw [hq, ← hp]; exact List.mem_map.mpr ⟨d, h, rfl⟩)
      rw [List.filterMap_cons_none (by rw [if_neg ha])]
      exact ih hn.2 h

theorem flatMap_path_single (l : List Require) (hn : (l.map Require.path).Nodup)
    (d : Require) (hd : d ∈ l) (G : Require → List Require)
    (hG : ∀ d' ∈ l, d'.path ≠ d.path → G d' = []) :
    l.flatMap G = G d := by
  induction l with
  | nil => simp at hd
  | cons a as ih =>
    simp only [List.map_cons, List.nodup_cons] at hn
    rcases List.mem_cons.mp hd with h | h
    · subst h
      have hrest : as.flatMap G = [] := by
        rw [List.flatMap_eq_nil_iff]
        intro d' hd'
        refine hG d' (List.mem_cons_of_mem _ hd') ?_
        intro hq
        exact hn.1 (by rw [← hq]; exact List.mem_map.mpr ⟨d', hd', rfl⟩)
      rw [List.flatMap_cons, hrest, List.append_nil]
    · have ha : G a = [] := by
        refine hG a (List.mem_cons_self a as) ?_
        intro hq
        exact hn.1 (by rw [hq]; exact List.mem_map.mpr ⟨d, h, rfl⟩)
      rw [List.flatMap_cons, ha, List.nil_append]
      exact ih hn.2 h (fun d' hd' => hG d' (List.mem_cons_of_mem a hd'))

theorem flatMap_singleton_id (l : List Require) (F : Require → List Require)
    (h : ∀ d ∈ l, F d = [d]) : l.flatMap F = l := by
  induction l with
  | nil => rfl
  | cons a as ih =>
    rw [List.flatMap_cons, h a (List.mem_cons_self a as),
      ih (fun d hd => h d (List.mem_cons_of_mem a hd))]
    rfl

/-- Membership in the merged requirement list, unpacked. -/
theorem mem_MergedRequires {U D : ModFile} {r : Require} :
    r ∈ MergedRequires U D ↔
      ∃ d ∈ D.require, ∃ u ∈ U.require, u.path = d.path ∧
        r = { path := u.path
              version :=
                if 0 < semver.Compare d.version u.version then d.version else u.version
              indirect := u.indirect } := by
  unfold MergedRequires
  simp only [List.mem_flatMap, List.mem_filterMap]
  constructor
  · rintro ⟨d, hd, u, hu, hif⟩
    by_cases hp : u.path = d.path
    · rw [if_pos hp] at hif
      exact ⟨d, hd, u, hu, hp, (Option.some_inj.mp hif).symm⟩
    · rw [if_neg hp] at hif
      cases hif
  · rintro ⟨d, hd, u, hu, hp, hr⟩
    exact ⟨d, hd, u, hu, by rw [if_pos hp, hr]⟩

/-- `Rebase`'s requirement list is the merge loop's output swept by
`Cleanup`. -/
theorem Rebase_require_eq (U D : ModFile) :
    (Rebase U D).require = (MergedRequires U D).filter (fun r => !(r.path == "")) := rfl

/-! ## Fold lemmas about the exclude / replace / retract copies -/

theorem foldl_AddExclude_fresh (l : List Exclude) :
    ∀ acc : List Exclude, l.Nodup → (∀ e ∈ l, e ∉ acc) →
      l.foldl (fun a x => AddExclude a x.path x.version) acc = acc ++ l := by
  induction l with
  | nil => intro acc _ _; simp
  | cons e es ih =>
    intro acc hn hacc
    simp only [List.nodup_cons] at hn
    have hnone : ¬ (acc.any fun x => x.path == e.path && x.version == e.version) = true := by
      simp only [List.any_eq_true]
      rintro ⟨x, hx, hmatch⟩
      simp only [Bool.and_eq_true, beq_iff_eq] at hmatch
      have hxe : x = e := by
        cases x
        cases e
        simp_all
      exact hacc e (List.mem_cons_self e es) (hxe ▸ hx)
    rw [List.foldl_cons]
    rw [show AddExclude acc e.path e.version = acc ++ [e] by
      unfold AddExclude
      rw [if_neg hnone]]
    rw [ih (acc ++ [e]) hn.2 ?_]
    · simp
    · intro x hx
      simp only [List.mem_append, List.mem_singleton, not_or]
      exact ⟨fun hc => hacc x (List.mem_cons_of_mem e hx) hc,
        fun hc => hn.1 (hc ▸ hx)⟩

theorem AddReplaceLoop_no_match (op ov np nv : String) (l : List Replace) (need : Bool)
    (h : ∀ r ∈ l, (r.oldPath == op && (ov == "" || r.oldVersion == ov)) = false) :
    AddReplaceLoop op ov np nv l need = (l, need) := by
  induction l with
  | nil => rfl
  | cons r rs ih =>
    have hr := h r (List.mem_cons_self r rs)
    unfold AddReplaceLoop
    rw [if_neg (by rw [hr]; exact Bool.false_ne_true)]
    rw [ih (fun x hx => h x (List.mem_cons_of_mem r hx))]

theorem foldl_AddReplace_fresh (l : List Replace) :
    ∀ acc : List Replace, (l.map Replace.oldPath).Nodup →
      (∀ r ∈ acc, ∀ s ∈ l, r.oldPath ≠ s.oldPath) →
      l.foldl (fun a r => AddReplace a r.oldPath r.oldVersion r.newPath r.newVersion) acc =
        acc ++ l := by
  induction l with
  | nil => intro acc _ _; simp
  | cons r rs ih =>
    intro acc hn hacc
    simp only [List.map_cons, List.nodup_cons] at hn
    have hmatch : ∀ s ∈ acc,
        (s.oldPath == r.oldPath && (r.oldVersion == "" || s.oldVersion == r.oldVersion))
          = false := by
      intro s hs
      have hne := hacc s hs r (List.mem_cons_self r rs)
      simp only [Bool.and_eq_false_iff, beq_eq_false_iff_ne]
      exact Or.inl hne
    rw [List.foldl_cons]
    rw [show AddReplace acc r.oldPath r.oldVersion r.newPath r.newVersion = acc ++ [r] by
      unfold AddReplace
      rw [AddReplaceLoop_no_match _ _ _ _ _ _ hmatch]
      rfl]
    rw [ih (acc ++ [r]) hn.2 ?_]
    · simp
    · intro s hs t ht
      rcases List.mem_append.mp hs with hs | hs
      · exact hacc s hs t (List.mem_cons_of_mem r ht)
      · rw [List.mem_singleton.mp hs]
        intro hq
        exact hn.1 (hq ▸ List.mem_map.mpr ⟨t, ht, rfl⟩)

theorem foldl_AddRetract (l : List Retract) :
    ∀ acc : List Retract,
      l.foldl (fun a r => AddRetract a ⟨r.low, r.high⟩ r.rationale) acc = acc ++ l := by
  induction l with
  | nil => intro acc; simp
  | cons r rs ih =>
    intro acc
    rw [List.foldl_cons]
    rw [show AddRetract acc ⟨r.low, r.high⟩ r.rationale = acc ++ [r] from rfl]
    rw [ih (acc ++ [r])]
    simp

/-! ## The claims -/

/-- C9: the cleanup normalization pass applied by the merge is
idempotent — cleaning an already-cleaned manifest changes nothing. -/
theorem Cleanup_idempotent (m : ModFile) : Cleanup (Cleanup m) = Cleanup m := by
  unfold Cleanup
  simp only [List.filter_filter]
  cases m
  simp only [ModFile.mk.injEq, true_and]
  refine ⟨?_, ?_, ?_, ?_⟩ <;>
    exact List.filter_congr (fun a _ => Bool.and_self _)

/-- C8: the merged manifest's module path and go (language) version come
verbatim from the upstream manifest, and it carries a toolchain
directive exactly when upstream's toolchain is set and nonempty, in
which case it equals upstream's. -/
theorem Rebase_header_from_upstream (upstreamModFile downstreamModFile : ModFile) :
    (Rebase upstreamModFile downstreamModFile).modulePath = upstreamModFile.modulePath ∧
    (Rebase upstreamModFile downstreamModFile).goVersion = upstreamModFile.goVersion ∧
    ∀ t : String,
      (Rebase upstreamModFile downstreamModFile).toolchain = some t ↔
        (upstreamModFile.toolchain = some t ∧ t ≠ "") := by
  refine ⟨rfl, rfl, ?_⟩
  intro t
  show (match upstreamModFile.toolchain with
        | some s => if s ≠ "" then some s else none
        | none => none) = some t ↔ _
  cases h : upstreamModFile.toolchain with
  | none => simp
  | some s =>
    dsimp only
    by_cases hs : s = ""
    · subst hs
      rw [if_neg (not_not_intro rfl)]
      constructor
      · intro hst
        cases hst
      · rintro ⟨hst, hne⟩
        exact absurd (Option.some_inj.mp hst).symm hne
    · rw [if_pos hs]
      constructor
      · intro hst
        exact ⟨hst, fun hc => hs (Option.some_inj.mp hst ▸ hc)⟩
      · rintro ⟨hst, -⟩
        exact hst

/-- C4 (counterexample): `Rebase` publishes the formatted payload with a
single direct write to the output path and no rename at all, and
stopping mid-write leaves the proper prefix `[103]` — neither the old
truncated state `[]` nor the full payload — visible at the output path:
the write is not atomic and there is no temp-file-plus-rename step. -/
theorem Rebase_write_not_atomic :
    RebaseWriteOps ("go.mod") [103, 111] = [FsOp.write ("go.mod") [103, 111]] ∧
    atomicPublish (RebaseWriteOps ("go.mod") [103, 111]) ("go.mod") = false ∧
    hasRenameTo (RebaseWriteOps ("go.mod") [103, 111]) ("go.mod") = false ∧
    [103] ∈ VisibleCrashStates (RebaseWriteOps ("go.mod") [103, 111]) ("go.mod") ∧
    [103] ≠ [103, 111] ∧ ([103] : List Nat) ≠ [] := by
  decide

/-- C4 (amended): `Rebase` writes the serialized merged manifest to the
output path with one direct `os.WriteFile` call and never renames onto
it; consequently, for any nonempty payload some state other than the
complete payload is observable at the output path if the write is
interrupted. -/
theorem Rebase_write_direct (outputFile : String) (payload : List Nat)
    (h : payload ≠ []) :
    RebaseWriteOps outputFile payload = [FsOp.write outputFile payload] ∧
    hasRenameTo (RebaseWriteOps outputFile payload) outputFile = false ∧
    ∃ s, s ∈ VisibleCrashStates (RebaseWriteOps outputFile payload) outputFile ∧
      s ≠ payload := by
  refine ⟨rfl, rfl, [], ?_, fun hc => h hc.symm⟩
  unfold VisibleCrashStates RebaseWriteOps
  simp only [List.flatMap_cons, List.flatMap_nil, List.append_nil, if_pos rfl]
  exact List.mem_map.mpr ⟨0, by simp, by simp⟩

/-- C4 witness for the amended theorem, at a concrete two-byte payload. -/
theorem Rebase_write_direct_witness :
    RebaseWriteOps ("out.mod") [104, 105] = [FsOp.write ("out.mod") [104, 105]] ∧
    hasRenameTo (RebaseWriteOps ("out.mod") [104, 105]) ("out.mod") = false ∧
    ∃ s, s ∈ VisibleCrashStates (RebaseWriteOps ("out.mod") [104, 105]) ("out.mod") ∧
      s ≠ [104, 105] :=
  Rebase_write_direct ("out.mod") [104, 105] (by decide)

/-- C6: `ReadRemote` derives the log server name by truncating the trust
anchor at its first `+` (giving sum.golang.org) and targets that host
plus the suffix path over https; every non-200 response becomes an error
carrying the target URL and the status text; a 200 response returns the
body capped at 1 MiB — an oversized body is truncated to exactly 2^20
bytes and returned successfully, not rejected. -/
theorem ReadRemote_contract (get : String → Except String HttpResponse)
    (p : String) (resp : HttpResponse)
    (h : get ("https://" ++ logServerName ++ p) = Except.ok resp) :
    logServerName = "sum.golang.org" ∧
    (resp.statusCode ≠ 200 →
      ReadRemote get p =
        Except.error ("GET " ++ ("https://" ++ logServerName ++ p) ++ ": " ++ resp.status)) ∧
    (resp.statusCode = 200 → ReadRemote get p = Except.ok (resp.body.take (2 ^ 20))) ∧
    (resp.statusCode = 200 → 2 ^ 20 < resp.body.length →
      ∃ bs : List Nat, ReadRemote get p = Except.ok bs ∧ bs.length = 2 ^ 20) := by
  refine ⟨by decide, ?_, ?_, ?_⟩
  · intro hs
    simp only [ReadRemote]
    rw [h]
    dsimp only
    rw [if_pos hs]
  · intro hs
    simp only [ReadRemote]
    rw [h]
    dsimp only
    rw [if_neg (not_not_intro hs)]
  · intro hs hlen
    refine ⟨resp.body.take (2 ^ 20), ?_, ?_⟩
    · simp only [ReadRemote]
      rw [h]
      dsimp only
      rw [if_neg (not_not_intro hs)]
    · rw [List.length_take]
      omega

/-- A transport stub answering 200 with a three-byte body. -/
def demoGet : String → Except String HttpResponse :=
  fun _ => Except.ok { statusCode := 200, status := "200 OK", body := [7, 8, 9] }

/-- C6 witness: the contract applied to a concrete 200 response. -/
theorem ReadRemote_contract_witness :
    ReadRemote demoGet ("/lookup/example.com/m@v1.0.0") = Except.ok [7, 8, 9] := by
  have h := (ReadRemote_contract demoGet ("/lookup/example.com/m@v1.0.0")
    { statusCode := 200, status := "200 OK", body := [7, 8, 9] } rfl).2.2.1 rfl
  rw [h]
  rfl

/-- C1: a module path occurs among the merged manifest's requirements
exactly when it occurs among both the upstream and the downstream
requirement paths — the merged requirement set is precisely the
intersection.  The hypothesis (no empty upstream requirement path) holds
for every parseable manifest: modfile strict parsing rejects an empty
module path. -/
theorem Rebase_requirements_intersection (upstreamModFile downstreamModFile : ModFile)
    (hU : ∀ r ∈ upstreamModFile.require, r.path ≠ "") :
    ∀ p : String,
      p ∈ (Rebase upstreamModFile downstreamModFile).require.map Require.path ↔
        (p ∈ upstreamModFile.require.map Require.path ∧
         p ∈ downstreamModFile.require.map Require.path) := by
  intro p
  rw [Rebase_require_eq]
  constructor
  · intro hmem
    obtain ⟨r, hr, hrp⟩ := List.mem_map.mp hmem
    obtain ⟨hrm, -⟩ := List.mem_filter.mp hr
    obtain ⟨d, hd, u, hu, hup, hre⟩ := mem_MergedRequires.mp hrm
    have hrpath : r.path = u.path := by rw [hre]
    constructor
    · exact List.mem_map.mpr ⟨u, hu, by rw [← hrpath, hrp]⟩
    · exact List.mem_map.mpr ⟨d, hd, by rw [← hup, ← hrpath, hrp]⟩
  · rintro ⟨h1, h2⟩
    obtain ⟨u, hu, hup⟩ := List.mem_map.mp h1
    obtain ⟨d, hd, hdp⟩ := List.mem_map.mp h2
    refine List.mem_map.mpr ⟨Require.mk u.path
      (if 0 < semver.Compare d.version u.version then d.version else u.version)
      u.indirect, ?_, hup⟩
    refine List.mem_filter.mpr ⟨mem_MergedRequires.mpr ⟨d, hd, u, hu, ?_, rfl⟩, ?_⟩
    · rw [hup, hdp]
    · simp only [Bool.not_eq_true']
      exact (Bool.not_eq_true _).mp (by simp [hU u hu])

/-- C10: rebasing a manifest with unique requirement paths against
itself reproduces exactly its own requirement list — each dependency
path once, with its own version and indirect flag.  Nonempty paths
mirror what strict parsing guarantees. -/
theorem Rebase_self_identity (m : ModFile)
    (hn : (m.require.map Require.path).Nodup)
    (h0 : ∀ r ∈ m.require, r.path ≠ "") :
    (Rebase m m).require = m.require := by
  rw [Rebase_require_eq]
  have hM : MergedRequires m m = m.require := by
    unfold MergedRequires
    refine flatMap_singleton_id _ _ ?_
    intro d hd
    rw [filterMap_path_single
      (fun u => { path := u.path
                  version :=
                    if 0 < semver.Compare d.version u.version then d.version
                    else u.version
                  indirect := u.indirect })
      m.require d.path hn d hd rfl]
    rw [ite_self]
  rw [hM]
  refine List.filter_eq_self.mpr ?_
  intro r hr
  simp [h0 r hr]

/-- C2: for a module path shared by the upstream and downstream inputs
(each with unique requirement paths, as in any parsed manifest), the
merged manifest carries exactly one requirement at that path; its
indirect flag is upstream's, its version is one of the two input
versions, it compares no lower than either input version under
`semver.Compare`, and when the two versions tie it is upstream's. -/
theorem Rebase_shared_version_max (upstreamModFile downstreamModFile : ModFile)
    (u d : Require)
    (hnU : (upstreamModFile.require.map Require.path).Nodup)
    (hnD : (downstreamModFile.require.map Require.path).Nodup)
    (h0 : u.path ≠ "")
    (hu : u ∈ upstreamModFile.require) (hd : d ∈ downstreamModFile.require)
    (hp : d.path = u.path) :
    ∃ r : Require,
      (Rebase upstreamModFile downstreamModFile).require.filter
        (fun x => x.path == u.path) = [r] ∧
      r.indirect = u.indirect ∧
      (r.version = u.version ∨ r.version = d.version) ∧
      0 ≤ semver.Compare r.version u.version ∧
      0 ≤ semver.Compare r.version d.version ∧
      (semver.Compare d.version u.version = 0 → r.version = u.version) := by
  set tv := if 0 < semver.Compare d.version u.version then d.version else u.version with htv
  refine ⟨{ path := u.path, version := tv, indirect := u.indirect }, ?_, rfl, ?_, ?_, ?_, ?_⟩
  · rw [Rebase_require_eq, List.filter_filter]
    have hstep : (MergedRequires upstreamModFile downstreamModFile).filter
        (fun a => a.path == u.path && !(a.path == "")) =
        (MergedRequires upstreamModFile downstreamModFile).filter
        (fun a => a.path == u.path) := by
      refine List.filter_congr ?_
      intro a _
      by_cases hap : a.path = u.path
      · simp [hap, h0]
      · simp [hap]
    rw [hstep]
    unfold MergedRequires
    rw [filter_flatMap]
    rw [flatMap_path_single downstreamModFile.require hnD d hd _ ?_]
    · rw [filterMap_path_single
        (fun upstreamPkg =>
          { path := upstreamPkg.path
            version :=
              if 0 < semver.Compare d.version upstreamPkg.version then d.version
              else upstreamPkg.version
            indirect := upstreamPkg.indirect })
        upstreamModFile.require d.path hnU u hu hp.symm]
      rw [List.filter_cons]
      rw [if_pos (by simp)]
      rw [show (([] : List Require).filter fun x => x.path == u.path) = [] from rfl]
    · intro d' hd' hdp
      refine List.filter_eq_nil_iff.mpr ?_
      intro x hx
      obtain ⟨u', hu', hif⟩ := List.mem_filterMap.mp hx
      by_cases hq : u'.path = d'.path
      · rw [if_pos hq] at hif
        have hxp : x.path = u'.path := by rw [← Option.some_inj.mp hif]
        intro hct
        have hc : x.path = u.path := beq_iff_eq.mp hct
        rw [hxp, hq] at hc
        exact hdp (by rw [hc, hp])
      · rw [if_neg hq] at hif
        cases hif
  · dsimp only
    rw [htv]
    by_cases hc : 0 < semver.Compare d.version u.version
    · rw [if_pos hc]
      exact Or.inr rfl
    · rw [if_neg hc]
      exact Or.inl rfl
  · dsimp only
    rw [htv]
    by_cases hc : 0 < semver.Compare d.version u.version
    · rw [if_pos hc]
      omega
    · rw [if_neg hc]
      rw [semver.Compare_self]
  · dsimp only
    rw [htv]
    by_cases hc : 0 < semver.Compare d.version u.version
    · rw [if_pos hc, semver.Compare_self]
    · rw [if_neg hc]
      have hneg := semver.Compare_neg u.version d.version
      omega
  · intro hc0
    dsimp only
    rw [htv, if_neg (by omega)]

/-- The checksum loop is blind to anything after a failing requirement:
its output and error on `rs₁ ++ r :: rs₂` equal those on `rs₁ ++ [r]`
whenever every lookup in `rs₁` succeeds and one of `r`'s two lookups
fails, and the reported error names `r`'s path and version. -/
theorem UpdateChecksumsLoop_truncates
    (lookup : String → String → Except String (List String))
    (rs₁ : List Require) (r : Require) (rs₂ : List Require)
    (h1 : ∀ x ∈ rs₁, (lookup x.path x.version).isOk = true ∧
      (lookup x.path (x.version ++ "/go.mod")).isOk = true)
    (h2 : (lookup r.path r.version).isOk = false ∨
      (lookup r.path (r.version ++ "/go.mod")).isOk = false) :
    UpdateChecksumsLoop lookup (rs₁ ++ r :: rs₂) = UpdateChecksumsLoop lookup (rs₁ ++ [r]) ∧
    ∃ e : String,
      (UpdateChecksumsLoop lookup (rs₁ ++ r :: rs₂)).2 =
        some ("looking up " ++ r.path ++ "/" ++ r.version ++ e) := by
  induction rs₁ with
  | nil =>
    simp only [List.nil_append]
    cases hl1 : lookup r.path r.version with
    | error e =>
      constructor
      · unfold UpdateChecksumsLoop
        rw [hl1]
      · refine ⟨": " ++ e, ?_⟩
        unfold UpdateChecksumsLoop
        rw [hl1]
        simp [String.append_assoc]
    | ok lines1 =>
      cases hl2 : lookup r.path (r.version ++ "/go.mod") with
      | error e =>
        constructor
        · unfold UpdateChecksumsLoop
          rw [hl1, hl2]
        · refine ⟨"/go.mod: " ++ e, ?_⟩
          unfold UpdateChecksumsLoop
          rw [hl1, hl2]
          simp [String.append_assoc]
      | ok lines2 =>
        rw [hl1, hl2] at h2
        simp [Except.isOk, Except.toBool] at h2
  | cons a as ih =>
    obtain ⟨ha1, ha2⟩ := h1 a (List.mem_cons_self a as)
    cases hla : lookup a.path a.version with
    | error e =>
      rw [hla] at ha1
      simp [Except.isOk, Except.toBool] at ha1
    | ok l1 =>
      cases hlb : lookup a.path (a.version ++ "/go.mod") with
      | error e =>
        rw [hlb] at ha2
        simp [Except.isOk, Except.toBool] at ha2
      | ok l2 =>
        obtain ⟨ih1, e, ih2⟩ := ih (fun x hx => h1 x (List.mem_cons_of_mem a hx))
        constructor
        · show UpdateChecksumsLoop lookup (a :: (as ++ r :: rs₂)) =
            UpdateChecksumsLoop lookup (a :: (as ++ [r]))
          unfold UpdateChecksumsLoop
          rw [hla, hlb]
          rw [ih1]
        · refine ⟨e, ?_⟩
          show (UpdateChecksumsLoop lookup (a :: (as ++ r :: rs₂))).2 = _
          unfold UpdateChecksumsLoop
          rw [hla, hlb]
          exact ih2

/-- C3: when every lookup before requirement `r` succeeds and one of
`r`'s two lookups fails, `UpdateChecksums` stops at `r`: its output and
error are exactly those of running on the manifest truncated after `r`,
so not one line of any requirement after `r` is written, and the
returned error names `r`'s path and version. -/
theorem UpdateChecksums_abort_on_failure
    (lookup : String → String → Except String (List String))
    (f : ModFile) (rs₁ : List Require) (r : Require) (rs₂ : List Require)
    (hf : f.require = rs₁ ++ r :: rs₂)
    (h1 : ∀ x ∈ rs₁, (lookup x.path x.version).isOk = true ∧
      (lookup x.path (x.version ++ "/go.mod")).isOk = true)
    (h2 : (lookup r.path r.version).isOk = false ∨
      (lookup r.path (r.version ++ "/go.mod")).isOk = false) :
    UpdateChecksums lookup f = UpdateChecksums lookup { f with require := rs₁ ++ [r] } ∧
    ∃ e : String,
      (UpdateChecksums lookup f).2 =
        some ("looking up " ++ r.path ++ "/" ++ r.version ++ e) := by
  unfold UpdateChecksums
  rw [hf]
  exact UpdateChecksumsLoop_truncates lookup rs₁ r rs₂ h1 h2

/-- The checksum loop on all-successful lookups: the output is, for each
requirement in order, the content-hash lines then the go.mod-hash lines,
with no error. -/
theorem UpdateChecksumsLoop_success
    (lookup : String → String → Except String (List String)) (rs : List Require)
    (h : ∀ x ∈ rs, (lookup x.path x.version).isOk = true ∧
      (lookup x.path (x.version ++ "/go.mod")).isOk = true) :
    UpdateChecksumsLoop lookup rs =
      (rs.flatMap fun x =>
        okLines (lookup x.path x.version) ++ okLines (lookup x.path (x.version ++ "/go.mod")),
       none) := by
  induction rs with
  | nil => rfl
  | cons a as ih =>
    obtain ⟨ha1, ha2⟩ := h a (List.mem_cons_self a as)
    cases hla : lookup a.path a.version with
    | error e =>
      rw [hla] at ha1
      simp [Except.isOk, Except.toBool] at ha1
    | ok l1 =>
      cases hlb : lookup a.path (a.version ++ "/go.mod") with
      | error e =>
        rw [hlb] at ha2
        simp [Except.isOk, Except.toBool] at ha2
      | ok l2 =>
        unfold UpdateChecksumsLoop
        rw [hla, hlb]
        rw [ih (fun x hx => h x (List.mem_cons_of_mem a hx))]
        rw [List.flatMap_cons]
        rw [show okLines (lookup a.path a.version) = l1 by rw [hla]; rfl]
        rw [show okLines (lookup a.path (a.version ++ "/go.mod")) = l2 by rw [hlb]; rfl]

/-- C5: when every lookup succeeds, the checksum output consists, for
each requirement of the manifest in order, of the lines returned for
`(path, version)` followed by the lines returned for
`(path, version ++ "/go.mod")`, each verbatim in the order returned,
and nothing else; no error is reported. -/
theorem UpdateChecksums_success_output
    (lookup : String → String → Except String (List String)) (f : ModFile)
    (h : ∀ x ∈ f.require, (lookup x.path x.version).isOk = true ∧
      (lookup x.path (x.version ++ "/go.mod")).isOk = true) :
    UpdateChecksums lookup f =
      (f.require.flatMap fun x =>
        okLines (lookup x.path x.version) ++ okLines (lookup x.path (x.version ++ "/go.mod")),
       none) :=
  UpdateChecksumsLoop_success lookup f.require h

/-- C7 (amended): the rebase result depends on the downstream manifest
only through its requirement list — two downstreams with equal
requirements give identical results, however their module path,
excludes, replaces or retractions differ.  The merged excludes and
retractions are copied verbatim from upstream (under the manifest
invariants: excludes form a set, and parsed entries have nonempty
fields).  The merged replacements are produced by modfile's
`AddReplace` edit for each upstream replacement in order; that copies
upstream's list verbatim when upstream has at most one replace
directive per old module path, but not in general (see
`Rebase_replace_not_verbatim`). -/
theorem Rebase_ignores_downstream_metadata
    (upstreamModFile downstreamModFile downstreamModFile' : ModFile)
    (hreq : downstreamModFile.require = downstreamModFile'.require) :
    (Rebase upstreamModFile downstreamModFile = Rebase upstreamModFile downstreamModFile') ∧
    (upstreamModFile.exclude.Nodup →
      (∀ x ∈ upstreamModFile.exclude, x.path ≠ "") →
      (Rebase upstreamModFile downstreamModFile).exclude = upstreamModFile.exclude) ∧
    ((∀ r ∈ upstreamModFile.retract, r.low ≠ "" ∨ r.high ≠ "") →
      (Rebase upstreamModFile downstreamModFile).retract = upstreamModFile.retract) ∧
    ((upstreamModFile.replace.map Replace.oldPath).Nodup →
      (∀ r ∈ upstreamModFile.replace, r.oldPath ≠ "") →
      (Rebase upstreamModFile downstreamModFile).replace = upstreamModFile.replace) := by
  refine ⟨?_, ?_, ?_, ?_⟩
  · unfold Rebase MergedRequires
    rw [hreq]
  · intro hex hex0
    show (upstreamModFile.exclude.foldl
      (fun acc x => AddExclude acc x.path x.version) []).filter _ = _
    rw [foldl_AddExclude_fresh upstreamModFile.exclude [] hex (by simp)]
    rw [List.nil_append]
    refine List.filter_eq_self.mpr ?_
    intro x hx
    simp [hex0 x hx]
  · intro hret0
    show (upstreamModFile.retract.foldl
      (fun acc r => AddRetract acc ⟨r.low, r.high⟩ r.rationale) []).filter _ = _
    rw [foldl_AddRetract upstreamModFile.retract []]
    rw [List.nil_append]
    refine List.filter_eq_self.mpr ?_
    intro x hx
    rcases hret0 x hx with hl | hh
    · simp [hl]
    · simp [hh]
  · intro hrep hrep0
    show (upstreamModFile.replace.foldl
      (fun acc r => AddReplace acc r.oldPath r.oldVersion r.newPath r.newVersion) []).filter _
        = _
    rw [foldl_AddReplace_fresh upstreamModFile.replace [] hrep (by simp)]
    rw [List.nil_append]
    refine List.filter_eq_self.mpr ?_
    intro x hx
    simp [hrep0 x hx]

/-! ## Concrete manifests for the witnesses -/

/-- An upstream manifest with two requirements, one exclude, one replace
and one retraction (the spec's worked example, extended). -/
def demoUpstream : ModFile :=
  { modulePath := "example.com/up"
    goVersion := "1.22"
    toolchain := none
    require := [⟨"example.com/a", "v1.2.0", false⟩, ⟨"example.com/b", "v2.0.0", true⟩]
    exclude := [⟨"example.com/x", "v0.9.0"⟩]
    replace := [⟨"example.com/old", "v1.0.0", "example.com/new", "v1.0.1"⟩]
    retract := [⟨"v1.0.0", "v1.0.5", "broken"⟩] }

/-- A downstream fork sharing `example.com/a` (at a newer version) and
adding its own `example.com/c`. -/
def demoDownstream : ModFile :=
  { modulePath := "example.com/fork"
    goVersion := "1.21"
    toolchain := some ("go1.22.1")
    require := [⟨"example.com/a", "v1.3.0", false⟩, ⟨"example.com/c", "v1.0.0", false⟩]
    exclude := []
    replace := []
    retract := [] }

/-- `demoDownstream` with different module path, excludes, replaces and
retractions but the same requirements. -/
def demoDownstream2 : ModFile :=
  { demoDownstream with
    modulePath := "example.com/fork2"
    exclude := [⟨"example.com/z", "v0.1.0"⟩]
    replace := [⟨"example.com/p", "v1.0.0", "example.com/q", "v1.0.0"⟩]
    retract := [⟨"v0.2.0", "v0.2.5", "bad"⟩] }

/-- A lockfile whose middle requirement has no checksum log entries. -/
def demoLock : ModFile :=
  { modulePath := "example.com/lock"
    goVersion := "1.22"
    toolchain := none
    require := [⟨"example.com/a", "v1.3.0", false⟩,
                ⟨"example.com/bad", "v1.0.0", false⟩,
                ⟨"example.com/c", "v1.0.0", false⟩]
    exclude := []
    replace := []
    retract := [] }

/-- A checksum-log stub knowing `example.com/a` and `example.com/c` but
not `example.com/bad`. -/
def demoLookup : String → String → Except String (List String) := fun path vers =>
  if path == ("example.com/a") && vers == ("v1.3.0") then
    Except.ok ["example.com/a v1.3.0 h1:aaa="]
  else if path == ("example.com/a") && vers == ("v1.3.0/go.mod") then
    Except.ok ["example.com/a v1.3.0/go.mod h1:bbb="]
  else if path == ("example.com/c") && vers == ("v1.0.0") then
    Except.ok ["example.com/c v1.0.0 h1:ccc="]
  else if path == ("example.com/c") && vers == ("v1.0.0/go.mod") then
    Except.ok ["example.com/c v1.0.0/go.mod h1:ddd="]
  else Except.error ("not found")

/-- A checksum-log stub that answers every lookup with one line. -/
def demoLookupOk : String → String → Except String (List String) := fun path vers =>
  Except.ok [path ++ " " ++ vers ++ " h1:zzz="]

/-- C1 witness: on the spec's example, the shared path `example.com/a`
is merged and the upstream-only path `example.com/b` is dropped. -/
theorem Rebase_requirements_intersection_witness :
    ("example.com/a" : String) ∈
      (Rebase demoUpstream demoDownstream).require.map Require.path ∧
    ("example.com/b" : String) ∉
      (Rebase demoUpstream demoDownstream).require.map Require.path := by
  have h := Rebase_requirements_intersection demoUpstream demoDownstream (by decide)
  refine ⟨(h ("example.com/a")).mpr (by decide), fun hmem => ?_⟩
  have h2 := (h ("example.com/b")).mp hmem
  revert h2
  decide

/-- C2 witness: the merged entry for the shared path `example.com/a`,
with the downstream version winning and upstream's indirect flag. -/
theorem Rebase_shared_version_max_witness :
    ∃ r : Require,
      (Rebase demoUpstream demoDownstream).require.filter
        (fun x => x.path == ("example.com/a" : String)) = [r] ∧
      r.indirect = false ∧
      (r.version = ("v1.2.0" : String) ∨ r.version = ("v1.3.0" : String)) ∧
      0 ≤ semver.Compare r.version ("v1.2.0") ∧
      0 ≤ semver.Compare r.version ("v1.3.0") ∧
      (semver.Compare ("v1.3.0") ("v1.2.0") = 0 → r.version = ("v1.2.0")) :=
  Rebase_shared_version_max demoUpstream demoDownstream
    ⟨"example.com/a", "v1.2.0", false⟩ ⟨"example.com/a", "v1.3.0", false⟩
    (by decide) (by decide) (by decide) (by decide) (by decide) rfl

/-- C3 witness: with three requirements and the second one's lookups
failing, the run equals the run on the first two requirements alone —
nothing of the third is written — and the error names the second. -/
theorem UpdateChecksums_abort_on_failure_witness :
    UpdateChecksums demoLookup demoLock =
      UpdateChecksums demoLookup
        { demoLock with require :=
            [⟨"example.com/a", "v1.3.0", false⟩] ++ [⟨"example.com/bad", "v1.0.0", false⟩] } ∧
    ∃ e : String,
      (UpdateChecksums demoLookup demoLock).2 =
        some ("looking up " ++ ("example.com/bad" : String) ++ "/" ++
          ("v1.0.0" : String) ++ e) :=
  UpdateChecksums_abort_on_failure demoLookup demoLock
    [⟨"example.com/a", "v1.3.0", false⟩] ⟨"example.com/bad", "v1.0.0", false⟩
    [⟨"example.com/c", "v1.0.0", false⟩]
    rfl (by decide) (Or.inl (by decide))

/-- C5 witness: with an all-answering log, the output is the two lines
per requirement, in manifest order, and no error. -/
theorem UpdateChecksums_success_output_witness :
    UpdateChecksums demoLookupOk demoLock =
      (demoLock.require.flatMap fun x =>
        okLines (demoLookupOk x.path x.version) ++
          okLines (demoLookupOk x.path (x.version ++ "/go.mod")), none) :=
  UpdateChecksums_success_output demoLookupOk demoLock (fun _ _ => ⟨rfl, rfl⟩)

/-- An upstream manifest carrying two replace directives for the same
old module path — a versioned one and a version-less one — as an
ordinary go.mod may. -/
def demoUpstreamDupReplace : ModFile :=
  { modulePath := "example.com/up"
    goVersion := "1.22"
    toolchain := none
    require := []
    exclude := []
    replace := [⟨"example.com/p", "v1.0.0", "example.com/a", "v1.0.0"⟩,
                ⟨"example.com/p", "", "example.com/c", ""⟩]
    retract := [] }

/-- C7 counterexample: with two upstream replace directives for one old
module path, `Rebase` does not copy the replace list verbatim —
`AddReplace` redirects the first entry to the later directive's target
and drops the second entry entirely. -/
theorem Rebase_replace_not_verbatim :
    (Rebase demoUpstreamDupReplace demoDownstream).replace ≠
      demoUpstreamDupReplace.replace ∧
    (Rebase demoUpstreamDupReplace demoDownstream).replace =
      [⟨"example.com/p", "v1.0.0", "example.com/c", ""⟩] := by
  decide

/-- C7 witness: mutating the downstream's module path, excludes,
replaces and retractions leaves the rebase result unchanged, and the
merged excludes, retractions and (here: path-distinct) replacements are
upstream's. -/
theorem Rebase_ignores_downstream_metadata_witness :
    Rebase demoUpstream demoDownstream = Rebase demoUpstream demoDownstream2 ∧
    (Rebase demoUpstream demoDownstream).exclude = demoUpstream.exclude ∧
    (Rebase demoUpstream demoDownstream).retract = demoUpstream.retract ∧
    (Rebase demoUpstream demoDownstream).replace = demoUpstream.replace := by
  have h := Rebase_ignores_downstream_metadata demoUpstream demoDownstream demoDownstream2 rfl
  exact ⟨h.1, h.2.1 (by decide) (by decide), h.2.2.1 (by decide),
    h.2.2.2 (by decide) (by decide)⟩

/-- C10 witness: rebasing the demo upstream against itself reproduces
its own requirement list. -/
theorem Rebase_self_identity_witness :
    (Rebase demoUpstream demoUpstream).require = demoUpstream.require :=
  Rebase_self_identity demoUpstream (by decide) (by decide)

end GoMod
